import Mathlib

/-!
Verification of the code-generation core of the `havo` compiler
(`src/havo/src/gccjit.rs` and `src/havo/src/optimize/const_eval.rs`).

This file shallowly embeds the parts of the backend the claims are about:
the AST type algebra, the sizer `ty_size`, the type lowerer `ty_to_ctype`,
the overload resolver `search_for_func`, the statement and expression
lowerers `gen_stmt` / `gen_expr` (on a representative fragment of the AST),
the `main`-prelude of `gen_toplevel`, and the constant evaluator
`eval` / `eval_binop`.

Conventions used throughout:
- Rust panics (including `unwrap`, `expect`, array-index panics and
  `std::process::exit`) are modelled as error results of an `Option` or
  `Except` value; a fatal overload-resolution error carries the data the
  source prints before exiting.
- Recursion that is not structurally decreasing in the source (registry
  jumps, alias chains, interpreter recursion) is bounded by an explicit
  fuel parameter; fuel exhaustion is `none` and is never identified with
  any behaviour of the source.
- Interned names (`Name`) are modelled as strings; interning makes symbol
  equality stringwise equality.
-/

namespace Havo

/-- Interned identifier, `crate::syntax::interner::Name` in the source. -/
abbrev Name := String

/-- Integer-literal suffix (`crate::syntax::lexer::token::IntSuffix`). -/
inductive IntSuffix where
  | int
  | uint
  | byte
  | ubyte
  | long
  | ulong
deriving DecidableEq, Repr

/-- Integer-literal base (`crate::syntax::lexer::token::IntBase`). -/
inductive IntBase where
  | dec
  | hex
  | bin
deriving DecidableEq, Repr

/-- Float-literal suffix (`crate::syntax::lexer::token::FloatSuffix`). -/
inductive FloatSuffix where
  | float
  | double
deriving DecidableEq, Repr

mutual
/-- Modelled from the spec: the AST type algebra, a closed sum
(section 3 of the spec): `Void`, `Basic(name)`, `Ptr(T)`,
`Array(T, len?)`, `Func(ret, params)`, `Struct(name, fields, union)`,
`Vector(subtype, size)`.  The defining file `syntax/ast.rs` is not under
`src/`; positions and node ids carried by the source type do not take
part in type equality and are omitted.  Parameter and field lists are the
mutually defined `TyList` and `TyFields`. -/
inductive Ty where
  | void
  | basic (name : Name)
  | ptr (sub : Ty)
  | array (sub : Ty) (len : Option Nat)
  | func (ret : Ty) (params : TyList)
  | structTy (name : Name) (fields : TyFields) (union : Bool)
  | vector (sub : Ty) (size : Nat)
deriving DecidableEq, Repr
/-- A list of AST types (parameters of a function type). -/
inductive TyList where
  | nil
  | cons (t : Ty) (rest : TyList)
deriving DecidableEq, Repr
/-- A list of named AST struct fields. -/
inductive TyFields where
  | fnil
  | fcons (name : Name) (t : Ty) (rest : TyFields)
deriving DecidableEq, Repr
end

/-- The types of a `TyList` as an ordinary list. -/
def TyList.toList : TyList → List Ty
  | .nil => []
  | .cons t rest => t :: rest.toList

/-- The fields of a `TyFields` as an ordinary list. -/
def TyFields.toList : TyFields → List (Name × Ty)
  | .fnil => []
  | .fcons n t rest => (n, t) :: rest.toList

/-- Modelled from the spec: `Type::is_ptr`, true exactly on `Ptr`. -/
def Ty.is_ptr : Ty → Bool
  | .ptr _ => true
  | _ => false

/-- Modelled from the spec: `Type::is_struct`, true exactly on the
`Struct` variant (a `Basic` naming a registered struct is not a
`Struct`). -/
def Ty.is_struct : Ty → Bool
  | .structTy _ _ _ => true
  | _ => false

/-- Modelled from the spec: `Type::is_array`. -/
def Ty.is_array : Ty → Bool
  | .array _ _ => true
  | _ => false

/-- Modelled from the spec: `Type::is_basic`. -/
def Ty.is_basic : Ty → Bool
  | .basic _ => true
  | _ => false

/-- Modelled from the spec: `Type::is_vec`. -/
def Ty.is_vec : Ty → Bool
  | .vector _ _ => true
  | _ => false

/-- Modelled from the spec: `Type::make_ptr`, wrapping a type in `Ptr`
(the receiver is implicitly address-taken when it is a value). -/
def Ty.make_ptr (t : Ty) : Ty := .ptr t

/-- Modelled from the spec (`crate::semantic::ty_is_any_int`, whose file
is not under `src/`): a type classifies as integer when it is `Basic`
naming one of the integer primitives. -/
def ty_is_any_int : Ty → Bool
  | .basic n =>
    n == "u8" || n == "i8" || n == "u16" || n == "i16" || n == "u32" ||
    n == "i32" || n == "u64" || n == "i64" || n == "usize" || n == "char"
  | _ => false

/-- Modelled from the spec (`crate::semantic::ty_is_any_float`): a type
classifies as float when it is `Basic` naming `f32` or `f64`. -/
def ty_is_any_float : Ty → Bool
  | .basic n => n == "f32" || n == "f64"
  | _ => false

mutual
/-- GCCJIT types (`gccjit_rs::ty::Type`), as far as the lowerer builds
them: canonical primitives, pointer, fixed array, named struct or union,
function pointer, vector. -/
inductive CType where
  | u8T
  | i8T
  | charT
  | i16T
  | u16T
  | i32T
  | u32T
  | i64T
  | u64T
  | f32T
  | f64T
  | boolT
  | usizeT
  | unitT
  | ptrT (sub : CType)
  | arrT (sub : CType) (len : Nat)
  | structT (name : Name)
  | unionT (name : Name)
  | fnPtrT (ret : CType) (params : CTypeList)
  | vecT (sub : Name) (size : Nat)
deriving DecidableEq, Repr
/-- A list of gccjit types (parameters of a function-pointer type). -/
inductive CTypeList where
  | nil
  | cons (t : CType) (rest : CTypeList)
deriving DecidableEq, Repr
end

/-- Build a `CTypeList` from an ordinary list. -/
def CTypeList.ofList : List CType → CTypeList
  | [] => .nil
  | t :: rest => .cons t (CTypeList.ofList rest)

/-- `CType::make_pointer`. -/
def CType.make_pointer (t : CType) : CType := .ptrT t

/-- Registry entry for a lowered struct or union
(`Codegen::structures` value type `GccStruct`): the interned gccjit
type, the field handles (here: field name and its gccjit type, in
declaration order), and the ordered AST field types. -/
structure GccStruct where
  ty : CType
  fields : List (Name × CType)
  types : List Ty
deriving DecidableEq, Repr

/-- The struct registry `Codegen::structures` (a `HashMap` in the
source; modelled as an association list where insertion prepends, so
lookup finds the most recent binding). -/
abbrev Structures := List (Name × GccStruct)

/-- The alias table `Codegen::aliases`. -/
abbrev Aliases := List (Name × Ty)

/-- `HashMap` lookup on the association-list model. -/
def lookupA {κ α : Type} [DecidableEq κ] : List (κ × α) → κ → Option α
  | [], _ => none
  | (k, v) :: rest, n => if k = n then some v else lookupA rest n

/-- The fixed primitive widths of `Codegen::ty_size` (gccjit.rs lines
98 to 111): the match arms for the primitive names, `none` for any
other name. -/
def primSize : Name → Option Nat
  | "u8" => some 1
  | "i8" => some 1
  | "char" => some 1
  | "i16" => some 2
  | "u16" => some 2
  | "i32" => some 4
  | "u32" => some 4
  | "i64" => some 8
  | "u64" => some 8
  | "f32" => some 4
  | "f64" => some 8
  | "bool" => some 1
  | "usize" => some 8
  | _ => none

/-- `Codegen::ty_size` (gccjit.rs lines 92 to 153).  Sizes: vectors are
element size times lanes; `Void` is 0; primitives use `primSize`; a
`Basic` naming a registered struct (or union) sums the registry field
types, otherwise the alias table is consulted, otherwise the source
panics; `Ptr` and `Func` are 8; `Struct` sums the registry field types
(the union bit is never consulted, so unions are summed too); arrays
with a known length are element size times length, unbounded arrays are
pointer-sized.  `fuel` bounds the registry and alias jumps; the
recursive calls on syntactic subterms reuse the decremented fuel as
well. -/
def ty_size (fuel : Nat) (S : Structures) (A : Aliases) (ty : Ty) : Option Nat :=
  match fuel with
  | 0 => none
  | f + 1 =>
    match ty with
    | .vector sub size => (ty_size f S A sub).map (· * size)
    | .void => some 0
    | .basic name =>
      match primSize name with
      | some n => some n
      | none =>
        match lookupA S name with
        | some st => (st.types.mapM (ty_size f S A)).map List.sum
        | none =>
          match lookupA A name with
          | some t => ty_size f S A t
          | none => none
    | .ptr _ => some 8
    | .func _ _ => some 8
    | .structTy name _ _ =>
      match lookupA S name with
      | some st => (st.types.mapM (ty_size f S A)).map List.sum
      | none => none
    | .array sub len =>
      match len with
      | some n => (ty_size f S A sub).map (· * n)
      | none => some 8

/-- The canonical gccjit primitive for each primitive name, the
`ctx.new_type::<..>()` arms of `Codegen::ty_to_ctype` (gccjit.rs lines
178 to 190). -/
def primCType : Name → Option CType
  | "u8" => some .u8T
  | "i8" => some .i8T
  | "char" => some .charT
  | "i16" => some .i16T
  | "u16" => some .u16T
  | "i32" => some .i32T
  | "u32" => some .u32T
  | "i64" => some .i64T
  | "u64" => some .u64T
  | "f32" => some .f32T
  | "f64" => some .f64T
  | "bool" => some .boolT
  | "usize" => some .usizeT
  | _ => none

/-- The `new_vector_type` dispatch of `Codegen::ty_to_ctype` (gccjit.rs
lines 158 to 172): only the listed primitive subtype names are
accepted, anything else is `unimplemented!`. -/
def vectorCType (n : Name) (size : Nat) : Option CType :=
  match n with
  | "u8" | "i8" | "char" | "i16" | "u16" | "u32" | "u64" | "i64"
  | "i32" | "usize" => some (.vecT n size)
  | _ => none

mutual
/-- `Codegen::ty_to_ctype` (gccjit.rs lines 155 to 267).  Lowers an AST
type to a gccjit type.  The struct registry is threaded because the
`Struct` arm materializes and caches a new struct or union type; all
other panics (`unwrap` on a non-basic vector subtype, an unknown basic
name) are `none`. -/
def ty_to_ctype (fuel : Nat) (S : Structures) (A : Aliases) (ty : Ty) :
    Option (CType × Structures) :=
  match fuel with
  | 0 => none
  | f + 1 =>
    match ty with
    | .vector sub size =>
      match sub with
      | .basic n => (vectorCType n size).map (fun ct => (ct, S))
      | _ => none
    | .void => some (.unitT, S)
    | .basic name =>
      match primCType name with
      | some ct => some (ct, S)
      | none =>
        match lookupA S name with
        | some g => some (g.ty, S)
        | none =>
          match lookupA A name with
          | some t => ty_to_ctype f S A t
          | none => none
    | .ptr sub => (ty_to_ctype f S A sub).map (fun p => (p.1.make_pointer, p.2))
    | .func ret params => do
      let (cts, S1) ← lowerTyList f S A params.toList
      let (cret, S2) ← ty_to_ctype f S1 A ret
      pure (.fnPtrT cret (CTypeList.ofList cts), S2)
    | .structTy name fields union =>
      match lookupA S name with
      | some g => some (g.ty, S)
      | none => do
        let (lowered, S1) ← lowerFields f S A fields.toList
        let ct := if union then CType.unionT name else CType.structT name
        pure (ct, (name, ⟨ct, lowered.1, lowered.2⟩) :: S1)
    | .array sub len =>
      match len with
      | some n => (ty_to_ctype f S A sub).map (fun p => (.arrT p.1 n, p.2))
      | none => (ty_to_ctype f S A sub).map (fun p => (p.1.make_pointer, p.2))

/-- Lower a list of AST types in order, threading the struct registry
(the `params.iter().map(|elem| self.ty_to_ctype(elem))` pattern of the
source). -/
def lowerTyList (fuel : Nat) (S : Structures) (A : Aliases) :
    List Ty → Option (List CType × Structures) :=
  fun ts =>
    match fuel with
    | 0 => none
    | f + 1 =>
      match ts with
      | [] => some ([], S)
      | t :: rest => do
        let (ct, S1) ← ty_to_ctype f S A t
        let (cts, S2) ← lowerTyList f S1 A rest
        pure (ct :: cts, S2)

/-- Lower a list of struct fields in order: the field handles (name and
gccjit type) and the recorded AST types, threading the registry (the
field loop of the `Struct` arm, gccjit.rs lines 222 to 237). -/
def lowerFields (fuel : Nat) (S : Structures) (A : Aliases) :
    List (Name × Ty) → Option ((List (Name × CType) × List Ty) × Structures) :=
  fun fs =>
    match fuel with
    | 0 => none
    | f + 1 =>
      match fs with
      | [] => some (([], []), S)
      | (n, t) :: rest => do
        let (ct, S1) ← ty_to_ctype f S A t
        let (tail, S2) ← lowerFields f S1 A rest
        pure (((n, ct) :: tail.1, t :: tail.2), S2)
end

/-- `FunctionUnit` (gccjit.rs lines 36 to 44): the AST function data
the resolver consults (`f.params`, `f.ret`, `f.variadic`), the declared
receiver (`this_ast`), and the mangled IR name standing in for the
gccjit function handle `c`, together with the declared IR return type
of that handle. -/
structure FunctionUnit where
  fname : Name
  fparams : List (Name × Ty)
  ret : Ty
  variadic : Bool
  thisAst : Option Ty
  irname : String
  cret : CType
deriving DecidableEq, Repr

/-- The declared parameter types of a candidate. -/
def FunctionUnit.sigParams (f : FunctionUnit) : List Ty :=
  f.fparams.map Prod.snd

/-- The positional-argument loop of `Codegen::search_for_func`
(gccjit.rs lines 364 to 382), with `params_okay` and `not_found`
threaded exactly as in the source: returns the pair
`(params_okay, not_found)` at loop exit.  `fpar` is the candidate
declared parameter-type list, `args` the remaining call argument types,
`idx` the enumeration index, `ok` the current `params_okay`. -/
def argLoop (fpar : List Ty) (variadic : Bool) : List Ty → Nat → Bool → Bool × Bool
  | [], _, ok => (ok, false)
  | p :: ps, idx, ok =>
    match fpar.get? idx with
    | some fp =>
      if p = fp then argLoop fpar variadic ps (idx + 1) true
      else (false, true)
    | none =>
      if variadic && ok then (ok, false) else (false, true)

/-- `Codegen::search_for_func` (gccjit.rs lines 299 to 409).  Works
through the candidate list in order; `cont` is the `continue` of the
source loop.  A candidate is skipped when it declares more parameters
than the call passes.  A nullary candidate matches a nullary call when
neither side has a receiver.  A candidate declaring a receiver is
skipped when the call has none, or when the declared receiver differs
from the call receiver after the receiver is made a pointer if it is
not one already; when it matches and the declared parameter types equal
the argument types the candidate is returned, and otherwise control
falls through to the positional loop (`argLoop`).  Note that a
candidate declaring no receiver never looks at `this` at all.  On
success the declared parameter types are lowered (threading the struct
registry), so the result is the found triple together with the updated
registry; `none` models a panic inside that lowering. -/
def search_for_func (fuel : Nat) (S : Structures) (A : Aliases)
    (params : List Ty) (this : Option Ty) :
    List FunctionUnit →
    Option (Option (FunctionUnit × List CType × List Ty) × Structures)
  | [] => some (none, S)
  | f :: rest =>
    let cont := search_for_func fuel S A params this rest
    if f.fparams.length > params.length then cont
    else if f.fparams.length = 0 ∧ params.length = 0 ∧ f.thisAst = none ∧ this = none then
      some (some (f, [], []), S)
    else
      let retPayload : Option (Option (FunctionUnit × List CType × List Ty) × Structures) :=
        match lowerTyList fuel S A f.sigParams with
        | none => none
        | some (cts, S') => some (some (f, cts, f.sigParams), S')
      let argPhase : Option (Option (FunctionUnit × List CType × List Ty) × Structures) :=
        let r := argLoop f.sigParams f.variadic params 0 false
        if r.2 then cont else if r.1 then retPayload else cont
      match f.thisAst with
      | none => argPhase
      | some rc =>
        match this with
        | none => cont
        | some r =>
          let rp := if r.is_ptr then r else r.make_ptr
          if rc = rp then
            if f.sigParams = params then retPayload else argPhase
          else cont

/-- A constant (`constexpr`) AST function as the constant-function
resolver consults it: name, parameters, variadic flag
(`crate::syntax::ast::Function`, restricted to the read fields). -/
structure AstFn where
  fname : Name
  fparams : List (Name × Ty)
  variadic : Bool
deriving DecidableEq, Repr

/-- `Codegen::search_for_func_const` (gccjit.rs lines 411 to 470): like
`search_for_func` without the receiver block or the IR lowering of the
result. -/
def search_for_func_const (params : List Ty) (this : Option Ty) :
    List AstFn → Option (AstFn × List Ty)
  | [] => none
  | f :: rest =>
    let cont := search_for_func_const params this rest
    if f.fparams.length > params.length then cont
    else if f.fparams.length = 0 ∧ params.length = 0 ∧ this = none then
      some (f, [])
    else
      let r := argLoop (f.fparams.map Prod.snd) f.variadic params 0 false
      if r.2 then cont
      else if r.1 then some (f, f.fparams.map Prod.snd)
      else cont

/-- `gccjit_rs::block::BinaryOp`. -/
inductive BinaryOp where
  | plus
  | minus
  | mult
  | divide
  | modulo
  | bitwiseAnd
  | bitwiseXor
  | bitwiseOr
  | logicalAnd
  | logicalOr
  | lshift
  | rshift
deriving DecidableEq, Repr

/-- `gccjit_rs::block::ComparisonOp`. -/
inductive CompOp where
  | eq
  | ne
  | lt
  | le
  | gt
  | ge
deriving DecidableEq, Repr

/-- `gccjit_rs::block::UnaryOp`. -/
inductive UnaryOp where
  | minus
  | bitwiseNegate
  | logicalNegate
deriving DecidableEq, Repr

mutual
/-- A gccjit value, covering both rvalues and lvalues as the lowerer
builds them (the gccjit API constructors the source calls).  Explicit
`.to_rvalue()` calls are recorded with `toRVal`; implicit `ToRValue`
coercions at gccjit call sites are not. -/
inductive Value where
  | fromInt (ct : CType) (v : Int)
  | fromLong (ct : CType) (v : Int)
  | strLit (s : String)
  | castV (v : Value) (tgt : CType)
  | binopV (op : BinaryOp) (ct : CType) (l r : Value)
  | cmpV (op : CompOp) (l r : Value)
  | unopV (op : UnaryOp) (ct : CType) (v : Value)
  | arrAccessV (arr idx : Value)
  | toRVal (v : Value)
  | localV (name : Name) (ct : CType)
  | globalV (name : Name) (ct : CType)
  | paramRefV (idx : Nat) (ct : CType)
  | derefV (v : Value)
  | derefFieldV (obj : Value) (field : Name) (ct : CType)
  | accessFieldV (obj : Value) (field : Name) (ct : CType)
  | addrV (v : Value)
  | callV (fname : String) (ret : CType) (args : ValueList)
  | callPtrV (fv : Value) (args : ValueList)
  | funcAddrV (fname : String)
deriving DecidableEq, Repr
/-- Argument list of a call value. -/
inductive ValueList where
  | nil
  | cons (v : Value) (rest : ValueList)
deriving DecidableEq, Repr
end

/-- Build a `ValueList` from an ordinary list. -/
def ValueList.ofList : List Value → ValueList
  | [] => .nil
  | v :: rest => .cons v (ValueList.ofList rest)

/-- `RValue::get_type`: the gccjit type of a value, as far as the model
tracks it (`none` models an untracked case, which the embedded code
treats as a panic). -/
def Value.getCType : Value → Option CType
  | .fromInt ct _ => some ct
  | .fromLong ct _ => some ct
  | .strLit _ => some (.ptrT .charT)
  | .castV _ tgt => some tgt
  | .binopV _ ct _ _ => some ct
  | .cmpV _ _ _ => some .boolT
  | .unopV _ ct _ => some ct
  | .arrAccessV arr _ =>
    match arr.getCType with
    | some (.ptrT s) => some s
    | some (.arrT s _) => some s
    | _ => none
  | .toRVal v => v.getCType
  | .localV _ ct => some ct
  | .globalV _ ct => some ct
  | .paramRefV _ ct => some ct
  | .derefV v =>
    match v.getCType with
    | some (.ptrT s) => some s
    | _ => none
  | .derefFieldV _ _ ct => some ct
  | .accessFieldV _ _ ct => some ct
  | .addrV v => v.getCType.map .ptrT
  | .callV _ ret _ => some ret
  | .callPtrV fv _ =>
    match fv.getCType with
    | some (.fnPtrT ret _) => some ret
    | _ => none
  | .funcAddrV _ => none

/-- An instruction or terminator appended to a block
(`add_assignment`, `add_eval`, `end_with_jump`, `end_with_conditional`,
`end_with_return`, `end_with_void_return`). -/
inductive Instr where
  | assignI (lv : Value) (v : Value)
  | evalI (v : Value)
  | endJumpI (target : String)
  | endCondI (cond : Value) (thenB elseB : String)
  | endRetI (v : Value)
  | endVoidRetI
deriving DecidableEq, Repr

/-- `VarInfo` (gccjit.rs lines 47 to 52). -/
structure VarInfo where
  lval : Value
  ty : Ty
  cty : CType
deriving DecidableEq, Repr

mutual
/-- The expression fragment of the AST (`ExprKind`) that the embedded
lowerer covers: integer literals, boolean literals, identifiers, binary
expressions, calls with an optional receiver, and address-of.  Every
node carries its `NodeId` (the `id` field of the source `Expr`);
positions are omitted.  A receiver inside an expression is the mutually
defined `CExprOpt`, an argument list a `CExprList`. -/
inductive CExpr where
  | intE (id : Nat) (v : Int) (base : IntBase) (suffix : IntSuffix)
  | boolE (id : Nat) (b : Bool)
  | identE (id : Nat) (name : Name)
  | binE (id : Nat) (op : String) (l r : CExpr)
  | callE (id : Nat) (fname : Name) (receiver : CExprOpt) (args : CExprList)
  | addrOfE (id : Nat) (e : CExpr)
deriving DecidableEq, Repr
/-- Optional receiver expression. -/
inductive CExprOpt where
  | noneE
  | someE (e : CExpr)
deriving DecidableEq, Repr
/-- Call-argument list. -/
inductive CExprList where
  | nilE
  | consE (e : CExpr) (rest : CExprList)
deriving DecidableEq, Repr
end

/-- The node id of an expression. -/
def CExpr.eid : CExpr → Nat
  | .intE id _ _ _ => id
  | .boolE id _ => id
  | .identE id _ => id
  | .binE id _ _ _ => id
  | .callE id _ _ _ => id
  | .addrOfE id _ => id

/-- The arguments of a `CExprList` as an ordinary list. -/
def CExprList.toList : CExprList → List CExpr
  | .nilE => []
  | .consE e rest => e :: rest.toList

mutual
/-- The statement fragment of the AST (`StmtKind`) that the embedded
lowerer covers: expression statements, blocks, variable declarations,
returns, break, continue, if, while, C-style for, and the unconditional
loop.  `varS` carries its `NodeId` because `gen_stmt` looks the declared
type up under the statement id; the other ids are never consulted and
are omitted. -/
inductive CStmt where
  | exprS (e : CExpr)
  | blockS (stmts : CStmtList)
  | varS (id : Nat) (name : Name) (init : Option CExpr)
  | retS (e : Option CExpr)
  | breakS
  | continueS
  | ifS (cond : CExpr) (thenS : CStmt) (elseS : CStmtOpt)
  | whileS (cond : CExpr) (body : CStmt)
  | cforS (var : CStmt) (cond : CExpr) (step : CExpr) (body : CStmt)
  | loopS (body : CStmt)
deriving DecidableEq, Repr
/-- Optional else branch. -/
inductive CStmtOpt where
  | noneS
  | someS (s : CStmt)
deriving DecidableEq, Repr
/-- Statement list of a block. -/
inductive CStmtList where
  | nilS
  | consS (s : CStmt) (rest : CStmtList)
deriving DecidableEq, Repr
end

/-- The mutable state of `Codegen` (gccjit.rs lines 67 to 88) that the
embedded fragment touches.  All `HashMap` fields are association lists
whose insertion prepends; `globalsList` additionally fixes one
iteration sequence for the globals map: the source iterates
`self.globals.clone()`, a `std::collections::HashMap`, whose iteration
order is unspecified and need not be the declaration order, so the
embedding takes the sequence as part of the state and results about it
hold for, or are witnessed by, particular legal orders.  The
`break_blocks` and `continue_blocks` `VecDeque`s are used only through
`push_back`, `pop_back` and `back`, i.e. as stacks; they and the
`terminated` `Vec` are modelled as lists with the most recent element
first.  Blocks are identified by their (unique) names; `block_id` and
`tmp_id` are the fresh-name counters. -/
structure St where
  structures : Structures
  aliases : Aliases
  types : List (Nat × Ty)
  constants : List (Name × CExpr)
  varsM : List (Name × VarInfo)
  globalsList : List (Name × VarInfo × Option CExpr)
  functions : List (Name × List FunctionUnit)
  constFunctions : List (Name × List AstFn)
  externalFunctions : List (Name × FunctionUnit)
  breakBlocks : List String
  continueBlocks : List String
  terminated : List Bool
  blockId : Nat
  tmpId : Nat
  curFunc : Option String
  curBlock : Option String
deriving DecidableEq, Repr

/-- Fatal outcomes of the embedded lowerer: the overload-resolution
failure that prints the call name and argument types before
`std::process::exit(-1)` (gccjit.rs lines 1133 to 1140), the analogous
constant-function failure (lines 1193 to 1200), and every other panic
(`unwrap`, `expect`, `panic!`, `unimplemented!`, index out of
bounds). -/
inductive CgErr where
  | fnNotFound (fname : Name) (argTys : List Ty)
  | constFnNotFound (fname : Name) (argTys : List Ty)
  | panicked
deriving DecidableEq, Repr

/-- The lowering monad: state over `St`, an append-only trace of
emitted block instructions, and fatal errors.  The trace models the
`Block::add_*` and `Block::end_with_*` sinks of gccjit. -/
def Gen (α : Type) : Type := St → Except CgErr (α × St × List (String × Instr))

instance : Monad Gen where
  pure a := fun st => .ok (a, st, [])
  bind x f := fun st =>
    match x st with
    | .error e => .error e
    | .ok (a, st1, o1) =>
      match f a st1 with
      | .error e => .error e
      | .ok (b, st2, o2) => .ok (b, st2, o1 ++ o2)

/-- Read the whole state. -/
def getSt : Gen St := fun st => .ok (st, st, [])

/-- Update the state. -/
def modifySt (f : St → St) : Gen Unit := fun st => .ok ((), f st, [])

/-- Abort with a fatal outcome. -/
def throwG {α : Type} (e : CgErr) : Gen α := fun _ => .error e

/-- Lift an `Option`, where `none` is a panic. -/
def liftOpt {α : Type} : Option α → Gen α
  | some a => fun st => .ok (a, st, [])
  | none => fun _ => .error .panicked

/-- Append an instruction to a named block. -/
def emitTo (b : String) (i : Instr) : Gen Unit := fun st => .ok ((), st, [(b, i)])

/-- `self.cur_block.unwrap()`. -/
def curBlockG : Gen String := fun st =>
  match st.curBlock with
  | some b => .ok (b, st, [])
  | none => .error .panicked

/-- `self.cur_func.unwrap()` (the model only needs the fact that the
unwrap succeeds; blocks are identified by name). -/
def curFuncG : Gen String := fun st =>
  match st.curFunc with
  | some f => .ok (f, st, [])
  | none => .error .panicked

/-- Append an instruction to `self.cur_block.unwrap()`. -/
def emitI (i : Instr) : Gen Unit := do
  let b ← curBlockG
  emitTo b i

/-- `Codegen::block_name_new` (gccjit.rs lines 642 to 646). -/
def block_name_new : Gen String := fun st =>
  .ok ("L" ++ toString st.blockId, { st with blockId := st.blockId + 1 }, [])

/-- `Codegen::get_id_type` (gccjit.rs lines 638 to 640): the semantic
map lookup, whose `unwrap` panics when the node has no recorded
type. -/
def get_id_type (id : Nat) : Gen Ty := fun st =>
  match lookupA st.types id with
  | some t => .ok (t, st, [])
  | none => .error .panicked

/-- `self.ty_to_ctype(..)` as a monadic action: threads the struct
registry through the state and panics on failure. -/
def tyToCtypeG (fuel : Nat) (t : Ty) : Gen CType := fun st =>
  match ty_to_ctype fuel st.structures st.aliases t with
  | some (ct, S') => .ok (ct, { st with structures := S' }, [])
  | none => .error .panicked

/-- `*self.terminated.last_mut().unwrap() = true` (panics when the
stack is empty). -/
def terminatedSetTop : Gen Unit := fun st =>
  match st.terminated with
  | [] => .error .panicked
  | _ :: r => .ok ((), { st with terminated := true :: r }, [])

/-- The guarded variant used by `Return`: set the top only when
`self.terminated.last().is_some()`. -/
def terminatedSetTopIfAny : Gen Unit := fun st =>
  match st.terminated with
  | [] => .ok ((), st, [])
  | _ :: r => .ok ((), { st with terminated := true :: r }, [])

/-- `self.terminated.push(false)`. -/
def terminatedPushFalse : Gen Unit :=
  modifySt (fun s => { s with terminated := false :: s.terminated })

/-- `self.terminated.pop()` (popping an empty `Vec` yields `None` and
does not panic). -/
def terminatedPop : Gen Unit :=
  modifySt (fun s => { s with terminated := s.terminated.tail })

/-- `if !*self.terminated.last().unwrap() { cur_block.end_with_jump(b) }`
as used by the `If` lowering (the `unwrap` panics on an empty
stack). -/
def jumpUnlessTerminated (b : String) : Gen Unit := do
  let st ← getSt
  match st.terminated with
  | [] => throwG .panicked
  | t :: _ => if t then pure () else emitI (.endJumpI b)

/-- `self.cur_block = Some(b)`. -/
def setCurBlock (b : String) : Gen Unit :=
  modifySt (fun s => { s with curBlock := some b })

/-- The receiver-type computation of the ordinary-function call branch
(`if let Some(this) = this { Some(self.get_id_type(this.id)) } else
{ None }`, gccjit.rs lines 1126 to 1130). -/
def recvTyG (receiver : CExprOpt) : Gen (Option Ty) :=
  match receiver with
  | .someE te => do
    let t ← get_id_type te.eid
    pure (some t)
  | .noneE => pure none

/-- Substring test on character lists (`str::contains` with a string
pattern). -/
def strContainsAux (pat : List Char) : List Char → Bool
  | [] => pat.isPrefixOf []
  | c :: rest => pat.isPrefixOf (c :: rest) || strContainsAux pat rest

/-- `s.contains(pat)` for strings. -/
def strContains (s pat : String) : Bool := strContainsAux pat.toList s.toList

/-- The comparison guard of the `Binary` arm (gccjit.rs lines 1315 to
1321): `op.contains("==") || op.contains("!=") || op == "<" ||
op == ">" || op.contains(">=") || op.contains("<=")`. -/
def isComparisonOp (op : String) : Bool :=
  strContains op "==" || strContains op "!=" || op == "<" || op == ">" ||
  strContains op ">=" || strContains op "<="

/-- The comparison-operator table (gccjit.rs lines 1323 to 1331);
`none` is the `unreachable!` arm. -/
def cmpOpOf : String → Option CompOp
  | "==" => some .eq
  | ">" => some .gt
  | "<" => some .lt
  | ">=" => some .ge
  | "<=" => some .le
  | "!=" => some .ne
  | _ => none

/-- The integer-integer binary-operator table (gccjit.rs lines 1355 to
1368).  The source maps BOTH `|` and `&` to `BinaryOp::BitwiseAnd`;
`none` is the `panic!` arm. -/
def intIntBinop : String → Option BinaryOp
  | "+" => some .plus
  | "-" => some .minus
  | "*" => some .mult
  | "/" => some .divide
  | "%" => some .modulo
  | "|" => some .bitwiseAnd
  | "&" => some .bitwiseAnd
  | "^" => some .bitwiseXor
  | ">>" => some .rshift
  | "<<" => some .lshift
  | _ => none

/-- The arithmetic-only binary-operator table shared by the
float-float, float-int and vector arms (gccjit.rs lines 1384 to 1391,
1408 to 1415, 1432 to 1439); `none` is the `unreachable!` arm. -/
def arithBinop : String → Option BinaryOp
  | "+" => some .plus
  | "-" => some .minus
  | "*" => some .mult
  | "/" => some .divide
  | "%" => some .modulo
  | _ => none

/-- The boolean binary-operator table (gccjit.rs lines 1461 to 1464). -/
def boolBinop : String → Option BinaryOp
  | "&&" => some .logicalAnd
  | "||" => some .logicalOr
  | _ => none

/-- Truncation to 32-bit two's complement (the `as i32` conversions the
`Int` literal arm performs before `new_rvalue_from_int`). -/
def wrap32 (z : Int) : Int := (z + 2 ^ 31) % 2 ^ 32 - 2 ^ 31

/-- The `(value, retroactive type)` pair of the integer-literal arm of
`gen_expr` (gccjit.rs lines 919 to 963): each suffix fixes the gccjit
type and the `Basic` AST type installed when the checker left the node
untyped; the four `new_rvalue_from_int` suffixes pass the value `as
i32`, the two `new_rvalue_from_long` suffixes pass it whole. -/
def intLiteral (v : Int) : IntSuffix → Value × Ty
  | .int => (.fromInt .i32T (wrap32 v), .basic "i32")
  | .uint => (.fromInt .u32T (wrap32 v), .basic "u32")
  | .byte => (.fromInt .i8T (wrap32 v), .basic "i8")
  | .ubyte => (.fromInt .u8T (wrap32 v), .basic "u8")
  | .long => (.fromLong .i64T v, .basic "i64")
  | .ulong => (.fromLong .u64T v, .basic "u64")

mutual
/-- `Codegen::gen_expr` (gccjit.rs lines 888 to 1490) on the embedded
expression fragment.  Every recursive call consumes one unit of fuel;
fuel exhaustion is a panic and does not correspond to any source
behaviour. -/
def genExpr (fuel : Nat) (e : CExpr) : Gen Value :=
  match fuel with
  | 0 => throwG .panicked
  | f + 1 =>
    match e with
    | .intE id v _ suffix => do
      let (val, ty) := intLiteral v suffix
      let st ← getSt
      match lookupA st.types id with
      | some _ => pure val
      | none => do
        modifySt (fun s => { s with types := (id, ty) :: s.types })
        pure val
    | .boolE _ b => pure (.fromInt .boolT (if b then 1 else 0))
    | .identE id name => do
      let st ← getSt
      match lookupA st.constants name with
      | some cexpr => do
        let lv ← exprToLvalue f cexpr
        match lv with
        | some l => pure (.toRVal l)
        | none => genExpr f cexpr
      | none => do
        let lv ← exprToLvalue f (.identE id name)
        match lv with
        | some l => pure (.toRVal l)
        | none => throwG .panicked
    | .binE _ op e1 e2 => do
      let t1 ← get_id_type e1.eid
      let t2 ← get_id_type e2.eid
      if isComparisonOp op then do
        let cop ← liftOpt (cmpOpOf op)
        let cty ← tyToCtypeG f t1
        let r1 ← genExpr f e1
        let r2 ← genExpr f e2
        pure (.cmpV cop r1 (.castV r2 cty))
      else if t1.is_ptr && ty_is_any_int t2 then do
        let a ← genExpr f e1
        let i ← genExpr f e2
        pure (.toRVal (.arrAccessV a i))
      else if ty_is_any_int t1 && ty_is_any_int t2 then do
        let cty ← tyToCtypeG f t1
        let bop ← liftOpt (intIntBinop op)
        let l ← genExpr f e1
        let r ← genExpr f e2
        pure (.binopV bop cty l (.castV r cty))
      else if ty_is_any_float t1 && ty_is_any_float t2 then do
        let cty ← tyToCtypeG f t1
        let bop ← liftOpt (arithBinop op)
        let l ← genExpr f e1
        let r ← genExpr f e2
        pure (.binopV bop cty l (.castV r cty))
      else if ty_is_any_float t1 && ty_is_any_int t2 then do
        let cty ← tyToCtypeG f t1
        let bop ← liftOpt (arithBinop op)
        let l ← genExpr f e1
        let r ← genExpr f e2
        pure (.binopV bop cty l (.castV r cty))
      else if (t1.is_vec && ty_is_any_int t2) || ty_is_any_float t2 then do
        let cty ← tyToCtypeG f t1
        let bop ← liftOpt (arithBinop op)
        let l ← genExpr f e1
        let r ← genExpr f e2
        pure (.binopV bop cty l (.castV r cty))
      else
        match t1, t2 with
        | .basic s1, .basic s2 =>
          if s1 = "bool" ∧ s2 = "bool" then do
            let bop ← liftOpt (boolBinop op)
            let l ← genExpr f e1
            let r ← genExpr f e2
            pure (.binopV bop .boolT l r)
          else throwG .panicked
        | _, _ => throwG .panicked
    | .callE _cid fname receiver args => do
      let ptys ← idTypes f args.toList
      let st ← getSt
      match lookupA st.functions fname with
      | some funits => do
        let tyR ← recvTyG receiver
        let st1 ← getSt
        match search_for_func f st1.structures st1.aliases ptys tyR funits with
        | none => throwG .panicked
        | some (none, _) => throwG (.fnNotFound fname ptys)
        | some (some (fu, cts, asts), S') => do
          modifySt (fun s => { s with structures := S' })
          let vals ← genCallArgs f args.toList 0 cts asts
          let recv ← match receiver with
            | .someE te => do
              let ty ← get_id_type te.eid
              if ty.is_ptr then do
                let v ← genExpr f te
                pure [v]
              else do
                let ct ← tyToCtypeG f ty
                let v ← genExpr f (.addrOfE te.eid te)
                pure [Value.castV v ct.make_pointer]
            | .noneE => pure ([] : List Value)
          pure (.callV fu.irname fu.cret (.ofList (vals ++ recv)))
      | none =>
        match lookupA st.constFunctions fname with
        | some cfns =>
          match search_for_func_const ptys none cfns with
          | none => throwG (.constFnNotFound fname ptys)
          | some _ => pure (.fromInt .i32T 0)
        | none =>
          match lookupA st.externalFunctions fname with
          | some unit => do
            let vals ← genExtArgs f args.toList 0 unit.fparams
            pure (.callV unit.irname unit.cret (.ofList vals))
          | none =>
            match lookupA st.varsM fname with
            | some vi => do
              let vals ← genExprList f args.toList
              pure (.callPtrV vi.lval (.ofList vals))
            | none => throwG .panicked
    | .addrOfE id inner => do
      let ty ← get_id_type id
      let _ ← tyToCtypeG f ty
      let lv ← exprToLvalue f inner
      match lv with
      | none => do
        let rv ← genExpr f inner
        let ct ← liftOpt rv.getCType
        let st ← getSt
        let tmp := Value.globalV ("_" ++ toString st.tmpId ++ "_") ct
        emitI (.assignI tmp rv)
        modifySt (fun s => { s with tmpId := s.tmpId + 1 })
        pure (.addrV tmp)
      | some l => pure (.addrV l)

/-- `Codegen::expr_to_lvalue` (gccjit.rs lines 530 to 636) on the
embedded fragment: identifiers resolve through the locals then the
globals, a binary expression with pointer left-hand side and integral
right-hand side is array addressing, and every other embedded
expression kind falls to the wildcard arm and yields no lvalue. -/
def exprToLvalue (fuel : Nat) (e : CExpr) : Gen (Option Value) :=
  match fuel with
  | 0 => throwG .panicked
  | f + 1 =>
    match e with
    | .identE _ name => do
      let st ← getSt
      match lookupA st.varsM name with
      | some vi => pure (some vi.lval)
      | none =>
        match lookupA st.globalsList name with
        | some gi => pure (some gi.1.lval)
        | none => pure none
    | .binE _ _ l r => do
      let t1 ← get_id_type l.eid
      let t2 ← get_id_type r.eid
      if t1.is_ptr && ty_is_any_int t2 then do
        let a ← genExpr f l
        let i ← genExpr f r
        pure (some (.arrAccessV a i))
      else pure none
    | _ => pure none

/-- The node-id type lookup for a call argument list
(`args.iter().map(|expr| self.get_id_type(expr.id))`, gccjit.rs lines
1119 to 1122). -/
def idTypes (fuel : Nat) (args : List CExpr) : Gen (List Ty) :=
  match fuel with
  | 0 => throwG .panicked
  | f + 1 =>
    match args with
    | [] => pure []
    | a :: rest => do
      let t ← get_id_type a.eid
      let ts ← idTypes f rest
      pure (t :: ts)

/-- The argument-emission loop of the ordinary-function call
(gccjit.rs lines 1144 to 1159): positions below the declared count are
cast to the declared gccjit parameter type unless the declared AST type
is a struct or array; the (variadic) tail is passed through
unchanged. -/
def genCallArgs (fuel : Nat) (args : List CExpr) (i : Nat) (cts : List CType)
    (asts : List Ty) : Gen (List Value) :=
  match fuel with
  | 0 => throwG .panicked
  | f + 1 =>
    match args with
    | [] => pure []
    | a :: rest =>
      match asts.get? i with
      | some ty => do
        let v ← genExpr f a
        let casted ←
          if ty.is_struct = false && ty.is_array = false then do
            let ct ← liftOpt (cts.get? i)
            pure (Value.castV v ct)
          else pure v
        let tail ← genCallArgs f rest (i + 1) cts asts
        pure (casted :: tail)
      | none => do
        let v ← genExpr f a
        let tail ← genCallArgs f rest (i + 1) cts asts
        pure (v :: tail)

/-- The argument-emission loop of the external-function call
(gccjit.rs lines 1207 to 1226): the declared parameter type is lowered
per argument, and the cast is skipped for struct and array parameter
types; surplus arguments are passed through unchanged. -/
def genExtArgs (fuel : Nat) (args : List CExpr) (i : Nat)
    (fparams : List (Name × Ty)) : Gen (List Value) :=
  match fuel with
  | 0 => throwG .panicked
  | f + 1 =>
    match args with
    | [] => pure []
    | a :: rest =>
      match fparams.get? i with
      | some p => do
        let v ← genExpr f a
        let ct ← tyToCtypeG f p.2
        let v' := if p.2.is_struct = false && p.2.is_array = false then
            Value.castV v ct
          else v
        let tail ← genExtArgs f rest (i + 1) fparams
        pure (v' :: tail)
      | none => do
        let v ← genExpr f a
        let tail ← genExtArgs f rest (i + 1) fparams
        pure (v :: tail)

/-- Plain rvalue lowering of an argument list (the call-through-pointer
path, gccjit.rs lines 1238 to 1241). -/
def genExprList (fuel : Nat) (args : List CExpr) : Gen (List Value) :=
  match fuel with
  | 0 => throwG .panicked
  | f + 1 =>
    match args with
    | [] => pure []
    | a :: rest => do
      let v ← genExpr f a
      let vs ← genExprList f rest
      pure (v :: vs)
end

mutual
/-- `Codegen::gen_stmt` (gccjit.rs lines 648 to 886) on the embedded
statement fragment.  `init` is the flag distinguishing a function-level
block (lowered into the current block) from a nested block (lowered
into a fresh named block).  Block and stack bookkeeping follows the
source arm by arm; in particular `While` pushes `terminated` without
popping it, and `Loop` pushes the break and continue targets without
popping them, exactly as the source does. -/
def genStmt (fuel : Nat) (stmt : CStmt) (init : Bool) : Gen Unit :=
  match fuel with
  | 0 => throwG .panicked
  | f + 1 =>
    match stmt with
    | .exprS e => do
      let v ← genExpr f e
      emitI (.evalI v)
    | .blockS stmts =>
      if init then genStmtList f stmts
      else do
        let st ← getSt
        let old := st.curBlock
        let _ ← curFuncG
        let bn ← block_name_new
        modifySt (fun s => { s with curBlock := some bn })
        genStmtList f stmts
        modifySt (fun s => { s with curBlock := old })
    | .breakS => do
      let st ← getSt
      match st.breakBlocks.head? with
      | none => throwG .panicked
      | some bb => do
        emitI (.endJumpI bb)
        setCurBlock bb
        terminatedSetTop
    | .continueS => do
      let st ← getSt
      match st.continueBlocks.head? with
      | none => throwG .panicked
      | some cb => do
        let _ ← curFuncG
        let dead ← block_name_new
        emitI (.endJumpI cb)
        setCurBlock dead
    | .retS me => do
      match me with
      | some e => do
        let v ← genExpr f e
        emitI (.endRetI v)
      | none => emitI .endVoidRetI
      terminatedSetTopIfAny
    | .varS sid name minit => do
      let ty ← get_id_type sid
      let cty ← tyToCtypeG f ty
      let _ ← curFuncG
      let localVar := Value.localV name cty
      match minit with
      | some e => do
        let rv ← genExpr f e
        let astTy ← get_id_type e.eid
        let cty2 ← tyToCtypeG f astTy
        let rv' := if ty.is_struct = false && ty.is_array = false then
            Value.castV rv cty2
          else rv
        emitI (.assignI localVar rv')
      | none => pure ()
      modifySt (fun s => { s with varsM := (name, ⟨localVar, ty, cty⟩) :: s.varsM })
    | .ifS cond thenS melse => do
      let _ ← curFuncG
      let tn ← block_name_new
      let en ← block_name_new
      let bbThen := "if_true:" ++ tn
      let bbElse := "if_false:" ++ en
      let bbMerge ← match melse with
        | .someS _ => do
          let mn ← block_name_new
          pure ("after:" ++ mn)
        | .noneS => pure bbElse
      let v ← genExpr f cond
      emitI (.endCondI v bbThen bbElse)
      terminatedPushFalse
      setCurBlock bbThen
      genStmt f thenS true
      jumpUnlessTerminated bbMerge
      setCurBlock bbMerge
      terminatedPop
      terminatedPushFalse
      match melse with
      | .someS elseS => do
        setCurBlock bbElse
        genStmt f elseS true
        jumpUnlessTerminated bbMerge
      | .noneS => pure ()
      terminatedPop
      setCurBlock bbMerge
    | .cforS var cond step body => do
      let _ ← curFuncG
      let n1 ← block_name_new
      let loopCond := "for_cond:" ++ n1
      let n2 ← block_name_new
      let loopBody := "for_loop_body:" ++ n2
      let n3 ← block_name_new
      let afterLoop := "after_for:" ++ n3
      modifySt (fun s => { s with breakBlocks := afterLoop :: s.breakBlocks })
      modifySt (fun s => { s with continueBlocks := loopCond :: s.continueBlocks })
      genStmt f var true
      emitI (.endJumpI loopCond)
      setCurBlock loopCond
      let v ← genExpr f cond
      emitI (.endCondI v loopBody afterLoop)
      setCurBlock loopBody
      terminatedPushFalse
      genStmt f body true
      let _ ← genExpr f step
      emitI (.endJumpI loopCond)
      modifySt (fun s => { s with continueBlocks := s.continueBlocks.tail })
      modifySt (fun s => { s with breakBlocks := s.breakBlocks.tail })
      setCurBlock afterLoop
      terminatedPop
    | .whileS cond body => do
      let _ ← curFuncG
      let loopCond ← block_name_new
      let loopBody ← block_name_new
      let afterLoop ← block_name_new
      modifySt (fun s => { s with breakBlocks := afterLoop :: s.breakBlocks })
      modifySt (fun s => { s with continueBlocks := loopCond :: s.continueBlocks })
      emitI (.endJumpI loopCond)
      setCurBlock loopCond
      terminatedPushFalse
      let v ← genExpr f cond
      emitI (.endCondI v loopBody afterLoop)
      setCurBlock loopBody
      genStmt f body true
      emitI (.endJumpI loopCond)
      modifySt (fun s => { s with continueBlocks := s.continueBlocks.tail })
      modifySt (fun s => { s with breakBlocks := s.breakBlocks.tail })
      setCurBlock afterLoop
    | .loopS body => do
      let _ ← curFuncG
      let bb ← block_name_new
      let after ← block_name_new
      modifySt (fun s => { s with breakBlocks := after :: s.breakBlocks })
      modifySt (fun s => { s with continueBlocks := bb :: s.continueBlocks })
      emitI (.endJumpI bb)
      setCurBlock bb
      genStmt f body true
      emitI (.endJumpI bb)
      setCurBlock after

/-- The statement loop of the `Block` arm: every element is lowered
with `init = false`. -/
def genStmtList (fuel : Nat) (l : CStmtList) : Gen Unit :=
  match fuel with
  | 0 => throwG .panicked
  | f + 1 =>
    match l with
    | .nilS => pure ()
    | .consS s rest => do
      genStmt f s false
      genStmtList f rest
end

/-- The globals-initializer loop of pass 4 of `Codegen::gen_toplevel`
(gccjit.rs lines 1768 to 1775): for every entry of the iterated
snapshot of the globals map that records an initializer, lower the
initializer and assign it into the lvalue of the global, in the entry
block.  The list argument is the iteration sequence of
`self.globals.clone()`; being a `std::collections::HashMap` its order
is unspecified and in particular need not be declaration order. -/
def genGlobalInitsList (fuel : Nat) : List (Name × VarInfo × Option CExpr) → Gen Unit
  | [] => pure ()
  | (_, vi, me) :: rest => do
    match me with
    | some e => do
      let v ← genExpr fuel e
      emitTo "entry" (.assignI vi.lval v)
    | none => pure ()
    genGlobalInitsList fuel rest

/-- Iterate the globals snapshot held in the state. -/
def genGlobalInits (fuel : Nat) : Gen Unit := do
  let st ← getSt
  genGlobalInitsList fuel st.globalsList

/-- The parameter-copy loop of pass 4 (gccjit.rs lines 1777 to 1790):
allocate a local per parameter, assign the IR parameter rvalue into it
(the source calls `.to_rvalue()` explicitly here), and register the
local. -/
def genParamCopies (fuel : Nat) : List (Name × Ty) → Nat → Gen Unit
  | [], _ => pure ()
  | (name, pty) :: rest, i => do
    let cty ← tyToCtypeG fuel pty
    let loc := Value.localV name cty
    emitTo "entry" (.assignI loc (.toRVal (.paramRefV i cty)))
    modifySt (fun s => { s with varsM := (name, ⟨loc, pty, cty⟩) :: s.varsM })
    genParamCopies fuel rest (i + 1)

/-- An AST function as pass 4 consumes it: name, parameters, optional
receiver, return type and body. -/
structure FnDecl where
  fname : Name
  fparams : List (Name × Ty)
  thisP : Option (Name × Ty)
  ret : Ty
  body : CStmt
deriving DecidableEq, Repr

/-- The body-emission step of pass 4 of `Codegen::gen_toplevel` for one
matched non-external, non-intrinsic function (gccjit.rs lines 1762 to
1807): set the current function, create the entry block, and — exactly
when the function is named `main` — run the globals-initializer loop
before anything else; then copy the parameters into locals, install the
receiver as a local (assigned without an explicit `.to_rvalue()` call),
and lower the body with `init = true`. -/
def genFnBody (fuel : Nat) (fd : FnDecl) : Gen Unit := do
  modifySt (fun s => { s with curFunc := some fd.fname, curBlock := some "entry" })
  if fd.fname = "main" then genGlobalInits fuel else pure ()
  genParamCopies fuel fd.fparams 0
  match fd.thisP with
  | some (name, ty) => do
    let cty ← tyToCtypeG fuel ty
    let loc := Value.localV name cty
    emitTo "entry" (.assignI loc (.paramRefV fd.fparams.length cty))
    modifySt (fun s => { s with varsM := (name, ⟨loc, ty, cty⟩) :: s.varsM })
  | none => pure ()
  genStmt fuel fd.body true

/-- Truncation to 64-bit two's complement: the value a wrapping
(overflowing) `i64` operation stores. -/
def wrap64 (z : Int) : Int := (z + 2 ^ 63) % 2 ^ 64 - 2 ^ 63

/-- `i64::overflowing_add`, value component. -/
def i64_overflowing_add (a b : Int) : Int := wrap64 (a + b)

/-- `i64::overflowing_sub`, value component. -/
def i64_overflowing_sub (a b : Int) : Int := wrap64 (a - b)

/-- `i64::overflowing_mul`, value component. -/
def i64_overflowing_mul (a b : Int) : Int := wrap64 (a * b)

/-- `i64::overflowing_div`, value component: panics (`none`) when the
divisor is 0; otherwise truncated division, with the single overflow
case `i64::MIN / -1` wrapping back to `i64::MIN` (which `wrap64` of the
truncated quotient yields). -/
def i64_overflowing_div (a b : Int) : Option Int :=
  if b = 0 then none else some (wrap64 (a.tdiv b))

/-- The `%` operator on `i64`: panics (`none`) when the divisor is 0;
otherwise the truncated remainder (release semantics wrap the
`i64::MIN % -1` case to 0, which `wrap64` of the truncated remainder
yields). -/
def i64_rem (a b : Int) : Option Int :=
  if b = 0 then none else some (wrap64 (a.tmod b))

/-- The `<<` operator on `i64`: panics (`none`) on a shift amount
outside `[0, 64)`, otherwise the wrapped product with the power of
two. -/
def i64_shl (a b : Int) : Option Int :=
  if 0 ≤ b ∧ b < 64 then some (wrap64 (a * 2 ^ b.toNat)) else none

/-- The `>>` operator on `i64`: panics (`none`) on a shift amount
outside `[0, 64)`, otherwise the arithmetic (floor) shift. -/
def i64_shr (a b : Int) : Option Int :=
  if 0 ≤ b ∧ b < 64 then some (a.fdiv (2 ^ b.toNat)) else none

/-- Stand-in for the IEEE remainder `f1 % f2` of the float arm of the
`%` operator: Lean has no primitive float remainder, and floating-point
values are outside the shallow embedding; what matters for the embedded
evaluator is only that the arm totally yields a float carrying the left
suffix, which this stand-in preserves.  No claim depends on the float
value. -/
def floatRem (a b : Float) : Float := a - b * (a / b)

/-- `Const` (const_eval.rs lines 16 to 33): a compile-time value.
`noneC` is `Const::None`, the value meaning `not known`.  The
`Rc<RefCell<..>>` sharing of the source is flattened: the embedded
evaluator fragment never mutates a shared cell.  Field entries carry
the node id recorded with them. -/
inductive Const where
  | imm (v : Int) (s : IntSuffix) (b : IntBase)
  | floatC (f : Float) (s : FloatSuffix)
  | boolC (b : Bool)
  | structC (name : Name) (fields : List (Name × Const × Nat))
  | voidC
  | retC (c : Const)
  | strC (s : String)
  | arrayC (elems : List Const)
  | noneC

/-- `Const::is_none` (const_eval.rs lines 99 to 104). -/
def Const.isNoneC : Const → Bool
  | .noneC => true
  | _ => false

/-- The constant-evaluator expression fragment: the literal and binary
expression forms (`ExprKind::Int`, `Float`, `Bool`, `Binary`); node ids
and positions are not consulted by these arms of `ConstEval::eval` and
are omitted.  Note the source `ExprKind::Int(i, base, suffix)` payload
order. -/
inductive KExpr where
  | intK (v : Int) (base : IntBase) (suffix : IntSuffix)
  | floatK (f : Float) (suffix : FloatSuffix)
  | boolK (b : Bool)
  | binK (op : String) (l r : KExpr)

/-- The operator match of `ConstEval::eval_binop` (const_eval.rs lines
223 to 321), applied to the two already-evaluated operand constants.
A `none` result models a panic; `some Const.noneC` is the source
returning `Const::None`.  Integer arithmetic uses the `overflowing`
`i64` operations (division by zero therefore panics instead of
producing `Const::None`); the unlisted operators fall to the wildcard
arm and yield `Const::None`. -/
def eval_binop_vals (op : String) (c1 c2 : Const) : Option Const :=
  match op with
  | "+" =>
    match c1, c2 with
    | .imm i1 s b, .imm i2 _ _ => some (.imm (i64_overflowing_add i1 i2) s b)
    | .floatC f1 s, .floatC f2 _ => some (.floatC (f1 + f2) s)
    | _, _ => some .noneC
  | "-" =>
    match c1, c2 with
    | .imm i1 s b, .imm i2 _ _ => some (.imm (i64_overflowing_sub i1 i2) s b)
    | .floatC f1 s, .floatC f2 _ => some (.floatC (f1 - f2) s)
    | _, _ => some .noneC
  | "/" =>
    match c1, c2 with
    | .imm i1 s b, .imm i2 _ _ => (i64_overflowing_div i1 i2).map (fun r => .imm r s b)
    | .floatC f1 s, .floatC f2 _ => some (.floatC (f1 / f2) s)
    | _, _ => some .noneC
  | "*" =>
    match c1, c2 with
    | .imm i1 s b, .imm i2 _ _ => some (.imm (i64_overflowing_mul i1 i2) s b)
    | .floatC f1 s, .floatC f2 _ => some (.floatC (f1 * f2) s)
    | _, _ => some .noneC
  | "%" =>
    match c1, c2 with
    | .imm i1 s b, .imm i2 _ _ => (i64_rem i1 i2).map (fun r => .imm r s b)
    | .floatC f1 s, .floatC f2 _ => some (.floatC (floatRem f1 f2) s)
    | _, _ => some .noneC
  | "|" =>
    match c1, c2 with
    | .imm i1 s b, .imm i2 _ _ => some (.imm (Int.lor i1 i2) s b)
    | _, _ => some .noneC
  | "&" =>
    match c1, c2 with
    | .imm i1 s b, .imm i2 _ _ => some (.imm (Int.land i1 i2) s b)
    | _, _ => some .noneC
  | ">>" =>
    match c1, c2 with
    | .imm i1 s b, .imm i2 _ _ => (i64_shr i1 i2).map (fun r => .imm r s b)
    | _, _ => some .noneC
  | "<<" =>
    match c1, c2 with
    | .imm i1 s b, .imm i2 _ _ => (i64_shl i1 i2).map (fun r => .imm r s b)
    | _, _ => some .noneC
  | "||" =>
    match c1, c2 with
    | .boolC b1, .boolC b2 => some (.boolC (b1 || b2))
    | _, _ => some .noneC
  | "&&" =>
    match c1, c2 with
    | .boolC b1, .boolC b2 => some (.boolC (b1 && b2))
    | _, _ => some .noneC
  | "<" =>
    match c1, c2 with
    | .imm i1 _ _, .imm i2 _ _ => some (.boolC (decide (i1 < i2)))
    | .floatC f1 _, .floatC f2 _ => some (.boolC (f1 < f2))
    | _, _ => some .noneC
  | ">" =>
    match c1, c2 with
    | .imm i1 _ _, .imm i2 _ _ => some (.boolC (decide (i1 > i2)))
    | .floatC f1 _, .floatC f2 _ => some (.boolC (f1 > f2))
    | _, _ => some .noneC
  | "==" =>
    match c1, c2 with
    | .imm i1 _ _, .imm i2 _ _ => some (.boolC (decide (i1 = i2)))
    | .floatC f1 _, .floatC f2 _ => some (.boolC (f1 == f2))
    | .boolC b1, .boolC b2 => some (.boolC (b1 == b2))
    | _, _ => some .noneC
  | "!=" =>
    match c1, c2 with
    | .imm i1 _ _, .imm i2 _ _ => some (.boolC (decide (i1 ≠ i2)))
    | .floatC f1 _, .floatC f2 _ => some (.boolC (!(f1 == f2)))
    | .boolC b1, .boolC b2 => some (.boolC (b1 != b2))
    | _, _ => some .noneC
  | ">=" =>
    match c1, c2 with
    | .imm i1 _ _, .imm i2 _ _ => some (.boolC (decide (i1 ≥ i2)))
    | .floatC f1 _, .floatC f2 _ => some (.boolC (f1 ≥ f2))
    | _, _ => some .noneC
  | "<=" =>
    match c1, c2 with
    | .imm i1 _ _, .imm i2 _ _ => some (.boolC (decide (i1 ≤ i2)))
    | .floatC f1 _, .floatC f2 _ => some (.boolC (f1 ≤ f2))
    | _, _ => some .noneC
  | _ => some .noneC

/-- `ConstEval::eval` (const_eval.rs lines 366 to 644) on the embedded
fragment, with the body of `ConstEval::eval_binop` (lines 214 to 324)
inlined at the `Binary` arm: both operands are evaluated first, a
`Const::None` on either side short-circuits to `Const::None`, and
otherwise the operator match runs.  A `none` result models a panic. -/
def ConstEval.eval : KExpr → Option Const
  | .intK i b s => some (.imm i s b)
  | .floatK f s => some (.floatC f s)
  | .boolK b => some (.boolC b)
  | .binK op l r => do
    let c1 ← ConstEval.eval l
    let c2 ← ConstEval.eval r
    if c1.isNoneC || c2.isNoneC then some .noneC
    else eval_binop_vals op c1 c2

/-!  ## Theorems about the claims -/

/-- A minimal codegen state: inside a function body, at the entry
block, with every table empty and the counters at zero. -/
def stBase : St :=
  { structures := [], aliases := [], types := [], constants := [], varsM := [],
    globalsList := [], functions := [], constFunctions := [], externalFunctions := [],
    breakBlocks := [], continueBlocks := [], terminated := [], blockId := 0,
    tmpId := 0, curFunc := some "main", curBlock := some "entry" }

/-- State for a binary expression over two `i32`-typed operand nodes
(ids 2 and 3). -/
def stBin : St := { stBase with types := [(2, .basic "i32"), (3, .basic "i32")] }

/-- C1.  The claim says the lowerer maps `|` to bitwise OR, `&` to
bitwise AND and `^` to bitwise XOR (three distinct opcodes) for
integer-integer operands.  The code disagrees: its table (gccjit.rs
lines 1361 to 1363) sends BOTH `|` and `&` to `BinaryOp::BitwiseAnd`,
as this evaluation of the embedded `gen_expr` on `5 | 3`, `5 & 3` and
`5 ^ 3` (both operands typed `i32`) shows; `^` alone is correct.  The
final conjunct records that the emitted opcode for `|` is not the
bitwise OR the claim requires. -/
theorem claim_C1 :
    genExpr 5 (.binE 1 "|" (.intE 2 5 .dec .int) (.intE 3 3 .dec .int)) stBin
      = .ok (.binopV .bitwiseAnd .i32T (.fromInt .i32T 5)
              (.castV (.fromInt .i32T 3) .i32T), stBin, [])
  ∧ genExpr 5 (.binE 1 "&" (.intE 2 5 .dec .int) (.intE 3 3 .dec .int)) stBin
      = .ok (.binopV .bitwiseAnd .i32T (.fromInt .i32T 5)
              (.castV (.fromInt .i32T 3) .i32T), stBin, [])
  ∧ genExpr 5 (.binE 1 "^" (.intE 2 5 .dec .int) (.intE 3 3 .dec .int)) stBin
      = .ok (.binopV .bitwiseXor .i32T (.fromInt .i32T 5)
              (.castV (.fromInt .i32T 3) .i32T), stBin, [])
  ∧ BinaryOp.bitwiseAnd ≠ BinaryOp.bitwiseOr :=
  ⟨rfl, rfl, rfl, by decide⟩

/-- State for `var x: i64 = 5`: the declaration node (id 1) is typed
`i64` and the initializer literal (id 2) carries no recorded type, so
the lowerer retroactively installs `i32` from the literal suffix. -/
def stVar : St := { stBase with types := [(1, .basic "i64")] }

/-- C2.  The claim says the initializer rvalue is cast to the IR type
of the DECLARED variable.  The code disagrees: the `Var` arm (gccjit.rs
lines 732 to 747) shadows the declared `cty` and casts the initializer
to `ty_to_ctype` of the type recorded at the INITIALIZER node
(`get_id_type(expr.id)`) — a cast of the value to its own type.  On
`var x: i64 = 5` the local is created at `i64` but the assigned value
is `cast(5, i32)`, not `cast(5, i64)`, as the emitted assignment below
shows; the last conjunct records that the two IR types differ. -/
theorem claim_C2 :
    genStmt 6 (.varS 1 "x" (some (.intE 2 5 .dec .int))) true stVar
      = .ok ((),
          { stVar with
              types := (2, Ty.basic "i32") :: stVar.types,
              varsM := [("x", ⟨.localV "x" .i64T, .basic "i64", .i64T⟩)] },
          [("entry", .assignI (.localV "x" .i64T) (.castV (.fromInt .i32T 5) .i32T))])
  ∧ CType.i32T ≠ CType.i64T :=
  ⟨rfl, by decide⟩

/-- The break- and continue-stack depths after a lowering run, or
`none` when the run aborted. -/
def stackDepths (r : Except CgErr (Unit × St × List (String × Instr))) :
    Option (Nat × Nat) :=
  match r with
  | .ok (_, st, _) => some (st.breakBlocks.length, st.continueBlocks.length)
  | .error _ => none

/-- State for the loop statements: node 60 (the `for` variable
declaration) is typed `i32`; both stacks start empty. -/
def stLoop : St := { stBase with types := [(60, .basic "i32")] }

/-- C6.  The claim says every loop statement (While, CFor, Loop) pushes
one entry on each of the break- and continue-target stacks on entry and
pops it on exit, restoring both depths.  While (gccjit.rs lines 843 to
869) and CFor (lines 809 to 842) do; but the Loop arm (lines 870 to
884) pushes both targets and never pops them, so after lowering
`loop { }` from empty stacks both stacks have depth 1 instead of 0. -/
theorem claim_C6 :
    stLoop.breakBlocks.length = 0 ∧ stLoop.continueBlocks.length = 0
  ∧ stackDepths (genStmt 8 (.whileS (.boolE 50 true) (.blockS .nilS)) true stLoop)
      = some (0, 0)
  ∧ stackDepths (genStmt 8 (.cforS (.varS 60 "i" none) (.boolE 61 true)
        (.boolE 62 true) (.blockS .nilS)) true stLoop) = some (0, 0)
  ∧ stackDepths (genStmt 8 (.loopS (.blockS .nilS)) true stLoop) = some (1, 1) :=
  ⟨rfl, rfl, rfl, rfl, rfl⟩

/-- C10.  In the constant evaluator, a division of two known integer
constants with divisor 0 reaches `i64::overflowing_div`, which panics
(modelled `none`) instead of producing the `not known` result
`Const::None` (which would be `some Const.noneC`); a nonzero division
of known constants evaluates normally, locating the abort precisely at
the zero divisor. -/
theorem claim_C10 :
    ConstEval.eval (.binK "/" (.intK 1 .dec .int) (.intK 0 .dec .int)) = none
  ∧ ConstEval.eval (.binK "/" (.intK 7 .dec .int) (.intK 2 .dec .int))
      = some (.imm 3 .int .dec) :=
  ⟨rfl, rfl⟩

/-- C8.  The sizer: 8 bytes for pointers, function pointers and
unbounded arrays; element size times length for arrays of known
length; element size times lanes for vectors; the fixed primitive
widths with `usize = 8`; and, for a registered named aggregate —
reached through the `Struct` variant or through a `Basic` naming the
registry entry — the SUM of the registry field sizes, for structs and
unions alike (the union bit `u` is universally quantified and never
consulted). -/
theorem claim_C8 (n : Nat) (S : Structures) (A : Aliases) :
    (∀ t, ty_size (n + 1) S A (.ptr t) = some 8)
  ∧ (∀ r ps, ty_size (n + 1) S A (.func r ps) = some 8)
  ∧ (∀ t, ty_size (n + 1) S A (.array t none) = some 8)
  ∧ (∀ t k, ty_size (n + 1) S A (.array t (some k)) = (ty_size n S A t).map (· * k))
  ∧ (∀ t k, ty_size (n + 1) S A (.vector t k) = (ty_size n S A t).map (· * k))
  ∧ ty_size (n + 1) S A (.basic "u8") = some 1
  ∧ ty_size (n + 1) S A (.basic "i8") = some 1
  ∧ ty_size (n + 1) S A (.basic "char") = some 1
  ∧ ty_size (n + 1) S A (.basic "i16") = some 2
  ∧ ty_size (n + 1) S A (.basic "u16") = some 2
  ∧ ty_size (n + 1) S A (.basic "i32") = some 4
  ∧ ty_size (n + 1) S A (.basic "u32") = some 4
  ∧ ty_size (n + 1) S A (.basic "i64") = some 8
  ∧ ty_size (n + 1) S A (.basic "u64") = some 8
  ∧ ty_size (n + 1) S A (.basic "f32") = some 4
  ∧ ty_size (n + 1) S A (.basic "f64") = some 8
  ∧ ty_size (n + 1) S A (.basic "bool") = some 1
  ∧ ty_size (n + 1) S A (.basic "usize") = some 8
  ∧ (∀ nm fs u g, lookupA S nm = some g →
      ty_size (n + 1) S A (.structTy nm fs u)
        = (g.types.mapM (ty_size n S A)).map List.sum)
  ∧ (∀ nm g, primSize nm = none → lookupA S nm = some g →
      ty_size (n + 1) S A (.basic nm)
        = (g.types.mapM (ty_size n S A)).map List.sum) := by
  refine ⟨fun t => rfl, fun r ps => rfl, fun t => rfl, fun t k => rfl, fun t k => rfl,
    rfl, rfl, rfl, rfl, rfl, rfl, rfl, rfl, rfl, rfl, rfl, rfl, rfl, ?_, ?_⟩
  · intro nm fs u g h
    simp only [ty_size, h]
  · intro nm g hp h
    simp only [ty_size, hp, h]

/-- A registry holding a union `U` with fields `i32` and `u8`. -/
def unionFixture : Structures :=
  [("U", ⟨.unionT "U", [("a", .i32T), ("b", .u8T)], [.basic "i32", .basic "u8"]⟩)]

/-- Witness for C8 at a concrete registry: the union `U {a: i32, b:
u8}` sizes to 4 + 1 = 5 (the SUM, not the maximum 4), both through the
`Struct` variant and through its registered name. -/
theorem claim_C8_witness :
    ty_size 3 unionFixture [] (.structTy "U" .fnil true) = some 5
  ∧ ty_size 3 unionFixture [] (.basic "U") = some 5 := by
  obtain ⟨-, -, -, -, -, -, -, -, -, -, -, -, -, -, -, -, -, -, hs, hb⟩ :=
    claim_C8 2 unionFixture []
  constructor
  · rw [hs "U" .fnil true _ rfl]; rfl
  · rw [hb "U" _ rfl rfl]; rfl

/-- C9.  In the constant evaluator, a binary `+`, `-`, `*` or `/` whose
two operands evaluate to known integer constants yields the wrapping
64-bit two's-complement result (`wrap64` of the exact result, with `/`
truncating toward zero and defined only for a nonzero divisor — the
zero-divisor panic is claim C10), carrying the LEFT operand's suffix
and base. -/
theorem claim_C9 (e1 e2 : KExpr) (i1 i2 : Int) (s1 s2 : IntSuffix) (b1 b2 : IntBase)
    (h1 : ConstEval.eval e1 = some (.imm i1 s1 b1))
    (h2 : ConstEval.eval e2 = some (.imm i2 s2 b2)) :
    ConstEval.eval (.binK "+" e1 e2) = some (.imm (wrap64 (i1 + i2)) s1 b1)
  ∧ ConstEval.eval (.binK "-" e1 e2) = some (.imm (wrap64 (i1 - i2)) s1 b1)
  ∧ ConstEval.eval (.binK "*" e1 e2) = some (.imm (wrap64 (i1 * i2)) s1 b1)
  ∧ (i2 ≠ 0 →
      ConstEval.eval (.binK "/" e1 e2) = some (.imm (wrap64 (i1.tdiv i2)) s1 b1)) := by
  refine ⟨?_, ?_, ?_, ?_⟩
  · simp [ConstEval.eval, h1, h2, Const.isNoneC, eval_binop_vals, i64_overflowing_add]
  · simp [ConstEval.eval, h1, h2, Const.isNoneC, eval_binop_vals, i64_overflowing_sub]
  · simp [ConstEval.eval, h1, h2, Const.isNoneC, eval_binop_vals, i64_overflowing_mul]
  · intro hz
    simp [ConstEval.eval, h1, h2, Const.isNoneC, eval_binop_vals,
      i64_overflowing_div, hz]

/-- Witness for C9 at concrete operands: `i64::MAX + 1` wraps to
`i64::MIN`, and the lone overflowing division `i64::MIN / -1` wraps
back to `i64::MIN`, both carrying the left suffix `long` and base
`dec`. -/
theorem claim_C9_witness :
    ConstEval.eval (.binK "+" (.intK 9223372036854775807 .dec .long)
        (.intK 1 .dec .long))
      = some (.imm (-9223372036854775808) .long .dec)
  ∧ ConstEval.eval (.binK "/" (.intK (-9223372036854775808) .dec .long)
        (.intK (-1) .dec .long))
      = some (.imm (-9223372036854775808) .long .dec) := by
  constructor
  · have h := (claim_C9 (.intK 9223372036854775807 .dec .long) (.intK 1 .dec .long)
      9223372036854775807 1 .long .long .dec .dec rfl rfl).1
    rw [h]
    rfl
  · have h := (claim_C9 (.intK (-9223372036854775808) .dec .long)
      (.intK (-1) .dec .long) (-9223372036854775808) (-1) .long .long .dec .dec
      rfl rfl).2.2.2 (by decide)
    rw [h]
    rfl

/-- Unfolding of the `Gen` bind at a state: run the first action, and
on success run the continuation and concatenate the emissions. -/
theorem Gen.bind_apply {α β : Type} (x : Gen α) (k : α → Gen β) (st : St) :
    (x >>= k) st =
      match x st with
      | .error e => .error e
      | .ok (a, st1, o1) =>
        match k a st1 with
        | .error e => .error e
        | .ok (b, st2, o2) => .ok (b, st2, o1 ++ o2) := rfl

/-- Unfolding of the `Gen` pure at a state. -/
theorem Gen.pure_apply {α : Type} (a : α) (st : St) :
    (pure a : Gen α) st = .ok (a, st, []) := rfl

/-- C5.  A call whose name is in the ordinary function overload set
and for which `search_for_func` finds no candidate (for the argument
node types and the optional receiver type) is lowered to the fatal
outcome that carries the called name and every argument type — the
data the source prints before `std::process::exit(-1)` — and to no IR
call: the run ends in `.error`, so nothing is emitted. -/
theorem claim_C5 (f : Nat) (st : St) (id : Nat) (fname : Name) (recv : CExprOpt)
    (args : CExprList) (funits : List FunctionUnit) (ptys : List Ty)
    (tyR : Option Ty) (Sx : Structures)
    (hargs : idTypes f args.toList st = .ok (ptys, st, []))
    (hf : lookupA st.functions fname = some funits)
    (hrecv : recvTyG recv st = .ok (tyR, st, []))
    (hsearch : search_for_func f st.structures st.aliases ptys tyR funits
      = some (none, Sx)) :
    genExpr (f + 1) (.callE id fname recv args) st
      = .error (.fnNotFound fname ptys) := by
  simp only [genExpr, Gen.bind_apply, hargs, getSt, hf, hrecv, hsearch, throwG]

/-- State for the C5 witness: the overload set of `f` exists but is
empty, and the single boolean argument node (id 3) is typed. -/
def stC5 : St :=
  { stBase with functions := [("f", [])], types := [(3, .basic "bool")] }

/-- Witness for C5: calling `f(true)` in a state where the overload
set of `f` has no candidates aborts with the fatal outcome carrying
the name `f` and the argument type list `[bool]`. -/
theorem claim_C5_witness :
    genExpr 5 (.callE 1 "f" .noneE (.consE (.boolE 3 true) .nilE)) stC5
      = .error (.fnNotFound "f" [.basic "bool"]) :=
  claim_C5 4 stC5 1 "f" .noneE (.consE (.boolE 3 true) .nilE) [] [.basic "bool"]
    none stC5.structures rfl rfl rfl rfl

/-- C3 (amended).  When the call site has a receiver type `R`:
a candidate that declares a receiver `R_c` can only be selected when
`R_c` equals `R` if `R` is already a pointer and `Ptr(R)` otherwise
(part 1), and conversely such a candidate whose declared parameter
types equal the argument types is selected (part 2).  Candidates that
declare NO receiver are, contrary to the claim, not filtered out — see
the counterexample. -/
theorem claim_C3 :
    (∀ (fuel : Nat) (S : Structures) (A : Aliases) (P : List Ty) (R : Ty)
        (fU : FunctionUnit) (rc : Ty)
        (res : FunctionUnit × List CType × List Ty) (S' : Structures),
      fU.thisAst = some rc →
      search_for_func fuel S A P (some R) [fU] = some (some res, S') →
      rc = (if R.is_ptr then R else R.make_ptr))
  ∧ (∀ (fuel : Nat) (S : Structures) (A : Aliases) (P : List Ty) (R : Ty)
        (fU : FunctionUnit) (rc : Ty) (cts : List CType) (S' : Structures),
      fU.thisAst = some rc →
      rc = (if R.is_ptr then R else R.make_ptr) →
      fU.sigParams = P →
      lowerTyList fuel S A fU.sigParams = some (cts, S') →
      search_for_func fuel S A P (some R) [fU]
        = some (some (fU, cts, fU.sigParams), S')) := by
  constructor
  · intro fuel S A P R fU rc res S' hthis hsearch
    by_cases hrc : rc = (if R.is_ptr then R else R.make_ptr)
    · exact hrc
    · exfalso
      simp only [search_for_func, hthis] at hsearch
      split at hsearch
      · simp at hsearch
      · split at hsearch
        · simp_all
        · simp at hsearch
  · intro fuel S A P R fU rc cts S' hthis hrc hsig hlower
    have hlen : fU.fparams.length = P.length := by
      have := congrArg List.length hsig
      simpa [FunctionUnit.sigParams] using this
    simp only [search_for_func, hthis, hlower]
    rw [if_neg (by omega : ¬ fU.fparams.length > P.length)]
    rw [if_neg (by simp : ¬ (fU.fparams.length = 0 ∧ P.length = 0 ∧
      some rc = none ∧ some R = none))]
    rw [if_pos hrc, if_pos hsig]

/-- A candidate of `f` declaring no receiver and one `i32`
parameter. -/
def fNoRecv : FunctionUnit := ⟨"f", [("a", .basic "i32")], .void, false, none, "fi32", .unitT⟩

/-- Counterexample for C3 as stated: at a call site with receiver type
`P` (a non-pointer value type), the claim requires overload resolution
to keep ONLY candidates that declare a receiver; but the resolver
selects the candidate `fNoRecv`, which declares no receiver, matching
it on the argument types alone — the receiver block of
`search_for_func` is simply skipped for receiverless candidates. -/
theorem claim_C3_cex :
    fNoRecv.thisAst = none
  ∧ (Ty.basic "P").is_ptr = false
  ∧ search_for_func 3 [] [] [.basic "i32"] (some (.basic "P")) [fNoRecv]
      = some (some (fNoRecv, [.i32T], [.basic "i32"]), []) :=
  ⟨rfl, rfl, rfl⟩

/-- A candidate of `f` declaring the receiver `*P` and one `i32`
parameter. -/
def fRecvFix : FunctionUnit :=
  ⟨"f", [("a", .basic "i32")], .void, false, some (.ptr (.basic "P")), "fthisptrPi32", .unitT⟩

/-- Witness for C3 at a concrete candidate: for a value receiver of
type `P`, part 1 instantiates to the pointer rule `*P = Ptr(P)`, and
part 2 selects the candidate declaring receiver `*P` with matching
parameter list. -/
theorem claim_C3_witness :
    Ty.ptr (.basic "P")
      = (if (Ty.basic "P").is_ptr then Ty.basic "P" else (Ty.basic "P").make_ptr)
  ∧ search_for_func 3 [] [] [.basic "i32"] (some (.basic "P")) [fRecvFix]
      = some (some (fRecvFix, [.i32T], [.basic "i32"]), []) := by
  constructor
  · exact claim_C3.1 3 [] [] [.basic "i32"] (.basic "P") fRecvFix (.ptr (.basic "P"))
      (fRecvFix, [.i32T], [.basic "i32"]) [] rfl rfl
  · exact claim_C3.2 3 [] [] [.basic "i32"] (.basic "P") fRecvFix (.ptr (.basic "P"))
      [.i32T] [] rfl rfl rfl rfl

/-- Characterization of the positional-argument loop when the call
passes more arguments than the candidate declares: it accepts (reaches
loop exit with `params_okay` and without `not_found`) exactly when the
candidate is variadic, the enumeration has passed at least one declared
position (or entered with `params_okay` already set, which the initial
call never does), and every declared position matches. -/
theorem argLoop_spec (fpar : List Ty) (v : Bool) :
    ∀ (P : List Ty) (idx : Nat) (ok : Bool),
      fpar.length < idx + P.length → idx ≤ fpar.length →
      (argLoop fpar v P idx ok = (true, false) ↔
        (v = true ∧ (idx < fpar.length ∨ ok = true) ∧
          ∀ j, idx + j < fpar.length → P.get? j = fpar.get? (idx + j))) := by
  intro P
  induction P with
  | nil =>
    intro idx ok h1 h2
    simp only [List.length_nil, Nat.add_zero] at h1
    omega
  | cons p ps ih =>
    intro idx ok h1 h2
    have h1' : fpar.length < idx + 1 + ps.length := by
      simp only [List.length_cons] at h1
      omega
    match hget : fpar.get? idx with
    | none =>
      have hlen : fpar.length ≤ idx := List.get?_eq_none.mp hget
      have hidx : idx = fpar.length := by omega
      simp only [argLoop, hget]
      constructor
      · intro h
        by_cases hv : (v && ok) = true
        · rw [if_pos hv] at h
          obtain ⟨hv1, hv2⟩ := Bool.and_eq_true_iff.mp hv
          refine ⟨hv1, Or.inr hv2, ?_⟩
          intro j hj
          exact absurd hj (by omega)
        · rw [if_neg hv] at h
          simp at h
      · rintro ⟨hv, hside, -⟩
        have hok : ok = true := hside.resolve_left (by omega)
        rw [hv, hok]
        simp
    | some fp =>
      have hidx : idx < fpar.length := by
        by_contra hc
        rw [List.get?_eq_none.mpr (by omega)] at hget
        exact Option.noConfusion hget
      simp only [argLoop, hget]
      by_cases hp : p = fp
      · rw [if_pos hp]
        rw [ih (idx + 1) true h1' (by omega)]
        constructor
        · rintro ⟨hv, -, hall⟩
          refine ⟨hv, Or.inl hidx, ?_⟩
          intro j hj
          cases j with
          | zero =>
            simp only [List.get?_cons_zero, Nat.add_zero, hget, hp]
          | succ j' =>
            have := hall j' (by omega)
            simp only [List.get?_cons_succ]
            rw [this]
            congr 1
            omega
        · rintro ⟨hv, -, hall⟩
          refine ⟨hv, Or.inr rfl, ?_⟩
          intro j hj
          have := hall (j + 1) (by omega)
          simp only [List.get?_cons_succ] at this
          rw [this]
          congr 1
          omega
      · rw [if_neg hp]
        constructor
        · intro h
          exact absurd h (by simp)
        · rintro ⟨-, -, hall⟩
          have h0 := hall 0 (by omega)
          simp only [List.get?_cons_zero, Nat.add_zero, hget] at h0
          exact absurd (Option.some.inj h0) hp

/-- C4 (amended).  For a receiverless candidate and a call passing
strictly more arguments than the candidate declares: the candidate is
selected iff it is variadic, declares AT LEAST ONE parameter, and every
declared position matches the corresponding argument type — contrary
to the claim, a variadic candidate with zero declared parameters never
matches a non-empty argument list, because the loop reaches the
variadic check with `params_okay` still false (see the counterexample).
Part 2: every argument position at or beyond the declared count is
passed through exactly as `gen_expr` produced it, with no cast
wrapped around it. -/
theorem claim_C4 :
    (∀ (fuel : Nat) (S : Structures) (A : Aliases) (fU : FunctionUnit)
        (P : List Ty) (cts : List CType) (S' : Structures),
      fU.thisAst = none →
      fU.fparams.length < P.length →
      lowerTyList fuel S A fU.sigParams = some (cts, S') →
      (search_for_func fuel S A P none [fU]
          = some (some (fU, cts, fU.sigParams), S')
        ↔ (fU.variadic = true ∧ fU.fparams ≠ [] ∧
            ∀ j, j < fU.fparams.length → P.get? j = fU.sigParams.get? j)))
  ∧ (∀ (fuel : Nat) (st : St) (a : CExpr) (rest : List CExpr) (i : Nat)
        (cts : List CType) (asts : List Ty)
        (out : List Value × St × List (String × Instr)),
      asts.length ≤ i →
      genCallArgs (fuel + 1) (a :: rest) i cts asts st = .ok out →
      ∃ v st1 o1 tail, genExpr fuel a st = .ok (v, st1, o1) ∧ out.1 = v :: tail) := by
  constructor
  · intro fuel S A fU P cts S' hthis hlen hlower
    have hlenEq : fU.sigParams.length = fU.fparams.length :=
      List.length_map _ _
    have hspec := argLoop_spec fU.sigParams fU.variadic P 0 false
      (by omega) (by omega)
    have hC : (argLoop fU.sigParams fU.variadic P 0 false = (true, false)) ↔
        (fU.variadic = true ∧ fU.fparams ≠ [] ∧
          ∀ j, j < fU.fparams.length → P.get? j = fU.sigParams.get? j) := by
      rw [hspec]
      constructor
      · rintro ⟨hv, hor, hall⟩
        refine ⟨hv, ?_, ?_⟩
        · have hpos : 0 < fU.fparams.length := by
            rcases hor with h | h
            · omega
            · exact absurd h (by simp)
          exact List.length_pos.mp (by omega)
        · intro j hj
          have := hall j (by omega)
          simpa using this
      · rintro ⟨hv, hne, hall⟩
        have hpos : 0 < fU.fparams.length := List.length_pos.mpr hne
        refine ⟨hv, Or.inl (by omega), ?_⟩
        intro j hj
        have := hall j (by omega)
        simpa using this
    simp only [search_for_func, hthis, hlower]
    rw [if_neg (by omega : ¬ fU.fparams.length > P.length)]
    rw [if_neg (by rintro ⟨-, hP, -⟩; omega :
      ¬ (fU.fparams.length = 0 ∧ P.length = 0 ∧ True ∧ True))]
    rcases hAL : argLoop fU.sigParams fU.variadic P 0 false with ⟨ok, nf⟩
    rw [hAL] at hC
    cases nf with
    | true =>
      rw [if_pos (show ((ok, true) : Bool × Bool).2 = true from rfl)]
      constructor
      · intro h
        exact absurd h (by simp)
      · intro hc
        have := hC.mpr hc
        simp at this
    | false =>
      rw [if_neg (by simp : ¬ ((ok, false) : Bool × Bool).2 = true)]
      cases ok with
      | true =>
        rw [if_pos (show ((true, false) : Bool × Bool).1 = true from rfl)]
        exact ⟨fun _ => hC.mp rfl, fun _ => rfl⟩
      | false =>
        rw [if_neg (by simp : ¬ ((false, false) : Bool × Bool).1 = true)]
        constructor
        · intro h
          exact absurd h (by simp)
        · intro hc
          have := hC.mpr hc
          simp at this
  · intro fuel st a rest i cts asts out hle hrun
    have hnone : asts.get? i = none := List.get?_eq_none.mpr hle
    simp only [genCallArgs, hnone] at hrun
    rw [Gen.bind_apply] at hrun
    cases hE : genExpr fuel a st with
    | error e =>
      rw [hE] at hrun
      exact absurd hrun (by simp)
    | ok res =>
      obtain ⟨v, st1, o1⟩ := res
      rw [hE] at hrun
      dsimp only at hrun
      rw [Gen.bind_apply] at hrun
      cases hT : genCallArgs fuel rest (i + 1) cts asts st1 with
      | error e =>
        rw [hT] at hrun
        exact absurd hrun (by simp)
      | ok r2 =>
        obtain ⟨tl, st2, o2⟩ := r2
        rw [hT] at hrun
        simp only [Gen.pure_apply] at hrun
        refine ⟨v, st1, o1, tl, rfl, ?_⟩
        have h := Except.ok.inj hrun
        rw [← h]

/-- A variadic candidate of `f` with zero declared parameters and no
receiver. -/
def fVarZero : FunctionUnit := ⟨"f", [], .void, true, none, "f", .unitT⟩

/-- Counterexample for C4 as stated: the claim says a variadic
candidate with zero declared parameters (and no receiver) matches any
non-empty argument list; but on the one-argument call `f(i32)` the
resolver rejects `fVarZero` — the positional loop hits the variadic
check with `params_okay` still at its initial `false` — and resolution
finds no candidate. -/
theorem claim_C4_cex :
    fVarZero.variadic = true ∧ fVarZero.fparams = [] ∧ fVarZero.thisAst = none
  ∧ search_for_func 3 [] [] [.basic "i32"] none [fVarZero] = some (none, []) :=
  ⟨rfl, rfl, rfl, rfl⟩

/-- A variadic candidate of `f` declaring one `i32` parameter. -/
def fVarOne : FunctionUnit := ⟨"f", [("a", .basic "i32")], .void, true, none, "fi32", .unitT⟩

/-- Witness for C4: the variadic candidate declaring one `i32`
parameter is selected for the longer call `f(i32, u8)` (part 1
applied), and a tail argument beyond the declared count is passed
through exactly as lowered, uncast (part 2 applied at a boolean
literal past an empty declared list). -/
theorem claim_C4_witness :
    search_for_func 3 [] [] [.basic "i32", .basic "u8"] none [fVarOne]
      = some (some (fVarOne, [.i32T], [.basic "i32"]), [])
  ∧ ∃ v st1 o1 tail, genExpr 3 (.boolE 7 true) stBase = .ok (v, st1, o1) ∧
      ([Value.fromInt .boolT 1] : List Value) = v :: tail := by
  constructor
  · exact (claim_C4.1 3 [] [] fVarOne [.basic "i32", .basic "u8"] [.i32T] []
      rfl (by decide) rfl).mpr ⟨rfl, by decide, by decide⟩
  · exact claim_C4.2 3 stBase (.boolE 7 true) [] 0 [] []
      ([Value.fromInt .boolT 1], stBase, []) (by decide) rfl

/-- Unfolding of `getSt` at a state. -/
theorem getSt_apply (st : St) : getSt st = .ok (st, st, []) := rfl

/-- Unfolding of `modifySt` at a state. -/
theorem modifySt_apply (g : St → St) (st : St) :
    modifySt g st = .ok ((), g st, []) := rfl

/-- Unfolding of `emitTo` at a state. -/
theorem emitTo_apply (b : String) (i : Instr) (st : St) :
    emitTo b i st = .ok ((), st, [(b, i)]) := rfl

/-- Whether an expression is an integer literal. -/
def isIntLit : CExpr → Bool
  | .intE _ _ _ _ => true
  | _ => false

/-- The assignments the globals-initializer loop emits for a given
iteration sequence whose recorded initializers are integer literals:
one assignment into the lvalue of each initialized global, in
iteration order, in the entry block. -/
def initAssigns : List (Name × VarInfo × Option CExpr) → List (String × Instr)
  | [] => []
  | (_, vi, some (.intE _ v _ sfx)) :: rest =>
    ("entry", .assignI vi.lval (intLiteral v sfx).1) :: initAssigns rest
  | (_, _, some _) :: rest => initAssigns rest
  | (_, _, none) :: rest => initAssigns rest

/-- Lowering an integer literal emits nothing and yields its value;
the state can only change in the recorded-types table, so the globals
snapshot is preserved. -/
theorem genExpr_int (fl : Nat) (id : Nat) (v : Int) (b : IntBase) (sfx : IntSuffix)
    (st : St) :
    ∃ st', genExpr (fl + 1) (.intE id v b sfx) st = .ok ((intLiteral v sfx).1, st', [])
      ∧ st'.globalsList = st.globalsList := by
  cases hl : lookupA st.types id with
  | some t =>
    refine ⟨st, ?_, rfl⟩
    simp only [genExpr, Gen.bind_apply, getSt_apply, hl, List.append_nil, List.nil_append]
  | none =>
    refine ⟨{ st with types := (id, (intLiteral v sfx).2) :: st.types }, ?_, rfl⟩
    simp only [genExpr, Gen.bind_apply, getSt_apply, hl, modifySt_apply, Gen.pure_apply,
      List.append_nil, List.nil_append]

/-- The globals-initializer loop, on a snapshot whose initializers are
all integer literals, succeeds and emits exactly `initAssigns` of the
snapshot, in snapshot order. -/
theorem genGlobalInitsList_ints (fl : Nat) :
    ∀ (gs : List (Name × VarInfo × Option CExpr)) (st : St),
      (∀ g ∈ gs, ∀ e, g.2.2 = some e → isIntLit e = true) →
      ∃ st', genGlobalInitsList (fl + 1) gs st = .ok ((), st', initAssigns gs) := by
  intro gs
  induction gs with
  | nil =>
    intro st _
    exact ⟨st, rfl⟩
  | cons g rest ih =>
    intro st hall
    obtain ⟨n, vi, me⟩ := g
    cases me with
    | none =>
      obtain ⟨st', h⟩ := ih st (fun g hg => hall g (List.mem_cons_of_mem _ hg))
      refine ⟨st', ?_⟩
      simp only [genGlobalInitsList, Gen.bind_apply, Gen.pure_apply, h, initAssigns]
      rfl
    | some e =>
      have hlit : isIntLit e = true := hall _ (List.mem_cons_self _ _) e rfl
      cases e with
      | intE id v b sfx =>
        obtain ⟨stM, hI, hgl⟩ := genExpr_int fl id v b sfx st
        obtain ⟨st', h⟩ := ih stM (fun g hg => hall g (List.mem_cons_of_mem _ hg))
        refine ⟨st', ?_⟩
        simp only [genGlobalInitsList, Gen.bind_apply, hI, emitTo_apply, h, initAssigns]
        rfl
      | boolE id bb => exact absurd hlit (by simp [isIntLit])
      | identE id nm => exact absurd hlit (by simp [isIntLit])
      | binE id o l r => exact absurd hlit (by simp [isIntLit])
      | callE id f r a => exact absurd hlit (by simp [isIntLit])
      | addrOfE id e2 => exact absurd hlit (by simp [isIntLit])

/-- Splitting a successful run of a sequence of two unit actions into
the two runs and the concatenation of their emissions. -/
theorem bind_ok_split (x k : Gen Unit) (st st' : St) (out : List (String × Instr))
    (h : (x >>= fun _ => k) st = .ok ((), st', out)) :
    ∃ stM o1 o2, x st = .ok ((), stM, o1) ∧ k stM = .ok ((), st', o2) ∧
      out = o1 ++ o2 := by
  rw [Gen.bind_apply] at h
  cases hx : x st with
  | error e =>
    rw [hx] at h
    exact absurd h (by simp)
  | ok r =>
    obtain ⟨u, stM, o1⟩ := r
    cases u
    rw [hx] at h
    dsimp only at h
    cases hk : k stM with
    | error e =>
      rw [hk] at h
      exact absurd h (by simp)
    | ok r2 =>
      obtain ⟨u2, s2, o2⟩ := r2
      cases u2
      rw [hk] at h
      have h2 := Except.ok.inj h
      have hst : s2 = st' := congrArg (fun t => t.2.1) h2
      have hout : o1 ++ o2 = out := congrArg (fun t => t.2.2) h2
      refine ⟨stM, o1, o2, rfl, ?_, hout.symm⟩
      rw [hk, hst]

/-- C7 (amended).  When the body of `main` is emitted with every
recorded global initializer an integer literal, the emission trace is
the `initAssigns` of the globals snapshot — one assignment into each
initialized global's lvalue, in the snapshot's (hash-map) iteration
order, in the entry block — followed by everything else (parameter
copies and the user statements).  The iteration order of the globals
`HashMap` is unspecified, so DECLARATION order is not guaranteed; see
the counterexample. -/
theorem claim_C7 (fl : Nat) (fd : FnDecl) (st st' : St)
    (out : List (String × Instr))
    (hmain : fd.fname = "main")
    (hlits : st.globalsList.all
      (fun g => match g.2.2 with | some e => isIntLit e | none => true) = true)
    (hrun : genFnBody (fl + 1) fd st = .ok ((), st', out)) :
    ∃ rest, out = initAssigns st.globalsList ++ rest := by
  have hall : ∀ g ∈ st.globalsList, ∀ e, g.2.2 = some e → isIntLit e = true := by
    intro g hg e he
    have hx := List.all_eq_true.mp hlits g hg
    rw [he] at hx
    simpa using hx
  obtain ⟨stM, hG⟩ := genGlobalInitsList_ints fl st.globalsList
    { st with curFunc := some fd.fname, curBlock := some "entry" } hall
  simp only [genFnBody] at hrun
  obtain ⟨st0, o0, oR1, hmod, hrest, hout⟩ := bind_ok_split _ _ _ _ _ hrun
  have hmodv := modifySt_apply
    (fun s => { s with curFunc := some fd.fname, curBlock := some "entry" }) st
  rw [hmodv] at hmod
  have hm := Except.ok.inj hmod
  have hst0 : ({ st with curFunc := some fd.fname, curBlock := some "entry" } : St)
      = st0 := congrArg (fun t => t.2.1) hm
  have ho0 : ([] : List (String × Instr)) = o0 := congrArg (fun t => t.2.2) hm
  rw [hmain, if_pos rfl] at hrest
  obtain ⟨st1, oIte, oRest, hIte, -, hout2⟩ := bind_ok_split _ _ _ _ _ hrest
  rw [← hst0] at hIte
  simp only [genGlobalInits, Gen.bind_apply, getSt_apply] at hIte
  rw [hG] at hIte
  have hi := Except.ok.inj hIte
  have hoIte : ([] : List (String × Instr)) ++ initAssigns st.globalsList = oIte :=
    congrArg (fun t => t.2.2) hi
  refine ⟨oRest, ?_⟩
  rw [hout, hout2, ← ho0, ← hoIte]
  simp

/-- The info record of a global of IR type `i32`. -/
def viG (n : Name) : VarInfo := ⟨.globalV n .i32T, .basic "i32", .i32T⟩

/-- State whose program declared `g1 = 1` BEFORE `g2 = 2` (pass 3 of
`gen_toplevel` inserts the globals into the map in that order), while
the unspecified `HashMap` iteration sequence visits `g2` first — a
legal iteration order of that same map, as the permutation conjunct of
the counterexample records. -/
def stCex : St := { stBase with globalsList :=
  [("g2", viG "g2", some (.intE 11 2 .dec .int)),
   ("g1", viG "g1", some (.intE 10 1 .dec .int))] }

/-- The declaration of `main` with no parameters and an empty body. -/
def mainFd : FnDecl := ⟨"main", [], none, .void, .blockS .nilS⟩

/-- The state after the counterexample run: only the literal types were
recorded. -/
def stCexAfter : St := { stCex with types := [(10, .basic "i32"), (11, .basic "i32")] }

/-- The names of the globals assigned by a trace, in emission order. -/
def assignTargets (out : List (String × Instr)) : List Name :=
  out.filterMap (fun bi =>
    match bi.2 with
    | .assignI (.globalV n _) _ => some n
    | _ => none)

/-- Counterexample for C7 as stated: with `g1` declared before `g2`
but the globals map iterating `g2` first, emitting the body of `main`
assigns `g2` then `g1` — the hash map iteration order, which is a
permutation of, but different from, the declaration order `[g1, g2]`.
The claim's `in the globals declaration order` does not hold on this
legal iteration sequence. -/
theorem claim_C7_cex :
    genFnBody 4 mainFd stCex = .ok ((), stCexAfter,
      [("entry", .assignI (.globalV "g2" .i32T) (.fromInt .i32T 2)),
       ("entry", .assignI (.globalV "g1" .i32T) (.fromInt .i32T 1))])
  ∧ assignTargets
      [("entry", .assignI (.globalV "g2" .i32T) (.fromInt .i32T 2)),
       ("entry", .assignI (.globalV "g1" .i32T) (.fromInt .i32T 1))] = ["g2", "g1"]
  ∧ stCex.globalsList.map Prod.fst = ["g2", "g1"]
  ∧ (["g2", "g1"] : List Name).Perm ["g1", "g2"]
  ∧ (["g2", "g1"] : List Name) ≠ ["g1", "g2"] :=
  ⟨rfl, rfl, rfl, by decide, by decide⟩

/-- Witness for C7: the amended theorem applied to the counterexample
state — the emitted trace is exactly the iteration-order assignments
followed by a (here empty) remainder. -/
theorem claim_C7_witness :
    ∃ rest,
      [("entry", Instr.assignI (.globalV "g2" .i32T) (.fromInt .i32T 2)),
       ("entry", Instr.assignI (.globalV "g1" .i32T) (.fromInt .i32T 1))]
        = initAssigns stCex.globalsList ++ rest :=
  claim_C7 3 mainFd stCex stCexAfter
    [("entry", .assignI (.globalV "g2" .i32T) (.fromInt .i32T 2)),
     ("entry", .assignI (.globalV "g1" .i32T) (.fromInt .i32T 1))]
    rfl (by decide) rfl

end Havo
